import Mathlib

/-!
Shallow embedding of mangaki/mangaki/management/commands/morphingpm.py.

The file has two parts:
* the module-level corpus loader (lines 10 to 22 of the source), which parses
  a mapping from keys such as "1234.jpg" to tag/weight records into a dense
  matrix poster_tags together with the list index_posters of parsed ids;
* the function morphing (lines 28 to 51), which fills the interior slots of a
  morphism list by scanning all candidate rows.

Numeric values (numpy float64) are idealised as real numbers.  Failure paths
of the Python code (ValueError from int(), KeyError from the tag table,
IndexError from numpy indexing, ValueError from np.zeros on a negative
dimension, ValueError from max([])) are modelled with an explicit error type
threaded through Except.
-/

namespace Morphingpm

/-- Failure modes of the embedded code.  malformedKey is the ValueError
raised by int() on a key prefix that is not an integer literal; unknownTag is
the KeyError raised by tags_definition[tag]; indexError is the numpy
IndexError on an out-of-range index; negativeDimensions is the ValueError
raised by np.zeros on a negative dimension; emptyMax is the ValueError raised
by max([]) when the poster mapping is empty. -/
inductive Err where
  | malformedKey
  | unknownTag
  | indexError
  | negativeDimensions
  | emptyMax
  deriving DecidableEq, Repr

/-- The ASCII characters that Python int() skips as surrounding whitespace:
tab, newline, vertical tab, form feed, carriage return and space. -/
def isPySpace (ch : Char) : Bool :=
  ch == ' ' || ch == '\t' || ch == '\n' || ch == '\x0b' || ch == '\x0c' ||
  ch == '\r'

/-- The digit run of a Python int() literal: decimal digits in which a
single underscore may stand between two digits (CPython rejects leading,
trailing and doubled underscores).  The caller guarantees that the first
character is a digit. -/
def parseDigits : List Char → ℕ → Option ℕ
  | [], acc => some acc
  | ch :: cs, acc =>
      if ch.isDigit then parseDigits cs (10 * acc + (ch.toNat - 48))
      else if ch = '_' then
        match cs with
        | [] => none
        | c2 :: _ => if c2.isDigit then parseDigits cs acc else none
      else none

/-- Model of the Python int() conversion applied to a key prefix, exact on
strings of ASCII characters: optional surrounding whitespace (isPySpace),
an optional sign, then decimal digits with single underscores allowed
between digits.  int() additionally accepts non-ASCII decimal digits and
non-ASCII whitespace; those are outside this embedding, so acceptance
statements about the loader are scoped to ASCII key prefixes.  Note that
int() accepts a leading minus sign, so the result is an integer, not a
natural number. -/
def pyInt (s : String) : Option ℤ :=
  match ((s.toList.dropWhile isPySpace).reverse.dropWhile isPySpace).reverse with
  | [] => none
  | '-' :: rest =>
      match rest with
      | [] => none
      | c :: _ =>
          if c.isDigit then (parseDigits rest 0).map (fun n => -(n : ℤ))
          else none
  | '+' :: rest =>
      match rest with
      | [] => none
      | c :: _ =>
          if c.isDigit then (parseDigits rest 0).map (fun n => (n : ℤ))
          else none
  | cs =>
      match cs with
      | [] => none
      | c :: _ =>
          if c.isDigit then (parseDigits cs 0).map (fun n => (n : ℤ))
          else none

/-- The slice poster[:len(poster)-4] of source line 15/20, with Python slice
semantics: a negative stop index counts from the end of the string and is
clamped at 0. -/
def stripKey (s : String) : String :=
  let stop : ℤ := (s.length : ℤ) - 4
  let stopN : ℕ := if 0 ≤ stop then stop.toNat else ((s.length : ℤ) + stop).toNat
  String.mk (s.toList.take stopN)

/-- One value of the posters mapping: the record with the general field
holding the list of [tagName, weight] pairs. -/
structure Entry where
  general : List (String × ℝ)

/-- The posters mapping (a Python dict in insertion order). -/
abbrev Posters := List (String × Entry)

/-- The global tags_definition mapping from tag name to column index. -/
abbrev TagTable := List (String × ℕ)

/-- Lookup tags_definition[tag]; none models the KeyError case. -/
def lookupTag (t : TagTable) (name : String) : Option ℕ :=
  (t.find? (fun kv => kv.1 = name)).map (fun kv => kv.2)

/-- The first module-level loop (source lines 12 to 17): parse every key of
the posters mapping into index_posters, failing on the first key whose
stripped prefix is not an integer literal. -/
def parseIndices : Posters → Except Err (List ℤ)
  | [] => .ok []
  | (key, _) :: rest =>
      match pyInt (stripKey key) with
      | none => .error .malformedKey
      | some i => (parseIndices rest).map (fun l => i :: l)

/-- Python max over the collected indices; max([]) raises. -/
def listMax : List ℤ → Except Err ℤ
  | [] => .error .emptyMax
  | [x] => .ok x
  | x :: xs => (listMax xs).map (fun m => max x m)

/-- The dense matrix poster_tags, as a total function on row and column
indices; entries outside the allocated shape are never read. -/
abbrev Mat := ℕ → ℕ → ℝ

/-- One numpy element assignment poster_tags[r][c] = v. -/
def setEntry (m : Mat) (r c : ℕ) (v : ℝ) : Mat :=
  fun i j => if i = r ∧ j = c then v else m i j

/-- Resolution of a (possibly negative) Python int index against a numpy
axis of the given length: negative indices count from the end, and anything
outside [-len, len) raises IndexError. -/
def npIndex (len : ℕ) (i : ℤ) : Except Err ℕ :=
  if 0 ≤ i ∧ i < (len : ℤ) then .ok i.toNat
  else if -(len : ℤ) ≤ i ∧ i < 0 then .ok ((len : ℤ) + i).toNat
  else .error .indexError

/-- Inner loop of source lines 21 to 22: for each (tag, value) pair of one
poster record, store the value at poster_tags[idx][column].  Python
evaluates the assignment target left to right, so the row index resolves
(possibly raising IndexError) before the tag column is looked up (possibly
raising KeyError), and the column bound of the row assignment is checked
last. -/
def fillTags (t : TagTable) (rows cols : ℕ) (idx : ℤ) :
    List (String × ℝ) → Mat → Except Err Mat
  | [], m => .ok m
  | (tag, v) :: rest, m => do
      let r ← npIndex rows idx
      match lookupTag t tag with
      | none => .error .unknownTag
      | some col =>
          if col < cols then fillTags t rows cols idx rest (setEntry m r col v)
          else .error .indexError

/-- Outer loop of source lines 19 to 22: re-parse each key (the parse is
deterministic, so it agrees with the first loop) and store its tag weights. -/
def fillPosters (t : TagTable) (rows cols : ℕ) :
    Posters → Mat → Except Err Mat
  | [], m => .ok m
  | (key, e) :: rest, m =>
      match pyInt (stripKey key) with
      | none => .error .malformedKey
      | some idx => do
          let m2 ← fillTags t rows cols idx e.general m
          fillPosters t rows cols rest m2

/-- The corpus built by the module-level code: the tag dimension nb_tags, the
allocated row count, the matrix poster_tags, and the list index_posters of
ids that actually occur in the source mapping (the real items). -/
structure Corpus where
  nbTags : ℕ
  rows : ℕ
  mat : Mat
  real : List ℤ

/-- The whole module-level loader (source lines 10 to 22): parse all keys,
allocate np.zeros((max(index_posters)+1, nb_tags)) and fill in the recorded
tag weights. -/
def load (t : TagTable) (p : Posters) : Except Err Corpus := do
  let idxs ← parseIndices p
  let mx ← listMax idxs
  let rows ← if mx + 1 < 0 then Except.error Err.negativeDimensions
             else Except.ok (mx + 1).toNat
  let mat ← fillPosters t rows t.length p (fun _ _ => (0 : ℝ))
  return ⟨t.length, rows, mat, idxs⟩

/-! ## The morphing engine (source lines 24 to 51)

Definitions follow the source line by line; names keep the Python
identifiers (including the misspelling subdiv_lenght).  Since the values are
real numbers, branch conditions are classical propositions and the section is
noncomputable. -/

noncomputable section
open scoped Classical

/-- Row i of poster_tags, as a vector indexed by tag column. -/
def row (c : Corpus) (i : ℕ) : ℕ → ℝ := fun j => c.mat i j

/-- segment = poster_tags[b] - poster_tags[a] (source line 29). -/
def segment (c : Corpus) (a b : ℕ) : ℕ → ℝ := fun j => c.mat b j - c.mat a j

/-- np.linalg.norm of a tag-space vector: the Euclidean norm over the nbTags
coordinates. -/
def npNorm (c : Corpus) (v : ℕ → ℝ) : ℝ :=
  Real.sqrt (∑ j in Finset.range c.nbTags, v j ^ 2)

/-- seg_norm = np.linalg.norm(segment) (source line 30). -/
def seg_norm (c : Corpus) (a b : ℕ) : ℝ := npNorm c (segment c a b)

/-- subdiv_lenght = seg_norm/subdiv (source line 32). -/
def subdiv_lenght (c : Corpus) (a b : ℕ) (k : ℤ) : ℝ := seg_norm c a b / k

/-- sub_middles[i] = poster_tags[a] + segment*(i+1)/subdiv (source line 34),
for i between 0 and subdiv-2. -/
def sub_middles (c : Corpus) (a b : ℕ) (k : ℤ) (i : ℕ) : ℕ → ℝ :=
  fun j => c.mat a j + segment c a b j * (i + 1) / k

/-- distance(a, b) = np.linalg.norm(b - a) (source lines 24 to 26). -/
def distance (c : Corpus) (x y : ℕ → ℝ) : ℝ := npNorm c (fun j => y j - x j)

/-- current = poster_tags[i] - poster_tags[a] (source line 42). -/
def current (c : Corpus) (a i : ℕ) : ℕ → ℝ := fun j => c.mat i j - c.mat a j

/-- projection = np.dot(current, segment)/seg_norm (source line 43). -/
def projection (c : Corpus) (a b i : ℕ) : ℝ :=
  (∑ j in Finset.range c.nbTags, current c a i j * segment c a b j) /
    seg_norm c a b

/-- The guard of source line 41: i is neither endpoint and is a real poster
(its id occurs in index_posters). -/
def isCandidate (c : Corpus) (a b i : ℕ) : Prop :=
  i ≠ a ∧ i ≠ b ∧ (i : ℤ) ∈ c.real

/-- The guard of source line 45: the projection falls strictly inside the
open interval (subdiv_lenght/2, seg_norm - subdiv_lenght/2). -/
def eligible (c : Corpus) (a b : ℕ) (k : ℤ) (i : ℕ) : Prop :=
  projection c a b i > subdiv_lenght c a b k / 2 ∧
  projection c a b i < seg_norm c a b - subdiv_lenght c a b k / 2

/-- sub_in = floor(((projection-subdiv_lenght/2)/seg_norm) * subdiv) + 1
(source line 47). -/
def sub_in (c : Corpus) (a b : ℕ) (k : ℤ) (i : ℕ) : ℤ :=
  Int.floor (((projection c a b i - subdiv_lenght c a b k / 2) /
      seg_norm c a b) * k) + 1

/-- The guard of source line 49: the slot is unfilled (holds the literal 0)
or the candidate row is strictly nearer to the slot target than the row of
the current occupant. -/
def closerOrEmpty (c : Corpus) (a b : ℕ) (k : ℤ) (m : List ℕ) (i : ℕ) : Prop :=
  m.getD (sub_in c a b k i).toNat 0 = 0 ∨
  distance c (sub_middles c a b k ((sub_in c a b k i).toNat - 1)) (row c i) <
    distance c (sub_middles c a b k ((sub_in c a b k i).toNat - 1))
      (row c (m.getD (sub_in c a b k i).toNat 0))

/-- The body of the candidate loop (source lines 41 to 50) for one index i:
when every guard holds, write i into slot sub_in. -/
def assignStep (c : Corpus) (a b : ℕ) (k : ℤ) (m : List ℕ) (i : ℕ) : List ℕ :=
  if isCandidate c a b i then
    if eligible c a b k i then
      if closerOrEmpty c a b k m i then m.set (sub_in c a b k i).toNat i
      else m
    else m
  else m

/-- The candidate loop of source line 39: process i = 0, 1, ..., n-1 in
order. -/
def assignLoop (c : Corpus) (a b : ℕ) (k : ℤ) (m : List ℕ) : ℕ → List ℕ
  | 0 => m
  | n + 1 => assignStep c a b k (assignLoop c a b k m n) n

/-- morphism = [0]*(subdiv+1); morphism[0] = a; morphism[subdiv] = b
(source lines 35 to 37). -/
def initMorphism (a b : ℕ) (k : ℤ) : List ℕ :=
  ((List.replicate (k + 1).toNat 0).set 0 a).set k.toNat b

/-- The list returned by morphing on the non-failing path: the candidate
loop run over all nb_posters rows starting from the initial morphism. -/
def morphList (c : Corpus) (a b : ℕ) (k : ℤ) : List ℕ :=
  assignLoop c a b k (initMorphism a b k) c.rows

/-- The function morphing (source lines 28 to 51).  Indexing poster_tags at
an out-of-range row (line 29) raises IndexError; np.zeros((subdiv-1, ...))
with subdiv < 1 (line 31) raises ValueError on a negative dimension.  The
loop itself only writes at indices proved in range (see sub_in_bounds), so
the non-failing path returns the filled list. -/
def morphing (c : Corpus) (a b : ℕ) (k : ℤ) : Except Err (List ℕ) :=
  if c.rows ≤ a ∨ c.rows ≤ b then .error .indexError
  else if k - 1 < 0 then .error .negativeDimensions
  else .ok (morphList c a b k)

/-- Condition under which the division of source line 43 executes with a
zero divisor: the loop body is reached for a real candidate i distinct from
both endpoints while seg_norm is zero.  The division is guarded only by the
candidate test of line 41, never by a test on seg_norm. -/
def divByZeroAt (c : Corpus) (a b i : ℕ) : Prop :=
  i < c.rows ∧ isCandidate c a b i ∧ seg_norm c a b = 0

end

/-! ## Concrete corpora for witnesses and counterexamples

Each corpus below is a closed value of the Corpus structure; all use a
one-dimensional tag space so that norms evaluate to absolute values of
rational numbers. -/

/-- Four real posters on a line: rows 0, 1, 2, 3 hold the vectors [5], [0],
[10], [4].  Morphing from 1 to 2 with two subdivisions has one interior slot
with target [5]. -/
def mc : Corpus :=
  ⟨1, 4,
   fun i _ => if i = 0 then 5 else if i = 1 then 0 else if i = 2 then 10 else 4,
   [0, 1, 2, 3]⟩

/-- Three real posters: rows 0, 1, 2 hold [100], [0], [10].  Poster 0 lies
far beyond the segment from 1 to 2, so no candidate is ever eligible. -/
def mz : Corpus :=
  ⟨1, 3,
   fun i _ => if i = 0 then 100 else if i = 1 then 0 else 10,
   [0, 1, 2]⟩

/-- Three real posters: rows 0 and 1 both hold [1] and row 2 holds [3], so
the endpoints 0 and 1 are distinct ids with equal vectors. -/
def czz : Corpus :=
  ⟨1, 3, fun i _ => if i = 2 then 3 else 1, [0, 1, 2]⟩

/-- A single real poster with the zero vector. -/
def c4c : Corpus := ⟨1, 1, fun _ _ => 0, [0]⟩

/-- Tag table of the loader round-trip scenario. -/
def tt8 : TagTable := [("catgirl", 0), ("robot", 1)]

/-- Posters mapping of the loader round-trip scenario. -/
def pp8 : Posters := [("5.jpg", ⟨[("catgirl", 1.0)]⟩), ("9.jpg", ⟨[("robot", 0.5)]⟩)]

/-- The corpus the loader builds from pp8: ten rows, row 5 holding [1.0, 0]
and row 9 holding [0, 0.5]. -/
def c8corpus : Corpus :=
  ⟨2, 10, setEntry (setEntry (fun _ _ => (0 : ℝ)) 5 0 1.0) 9 1 0.5, [5, 9]⟩

/-- A posters mapping with a negative key prefix: int() parses "-5" to the
integer -5. -/
def ppNeg : Posters :=
  [("-5.jpg", ⟨[("catgirl", 1.0)]⟩), ("9.jpg", ⟨[("robot", 0.5)]⟩)]

/-- The corpus the loader builds from ppNeg: the negative index -5 resolves
(by numpy wrap-around) to row 5, and the id list records -5 as real. -/
def c9corpus : Corpus :=
  ⟨2, 10, setEntry (setEntry (fun _ _ => (0 : ℝ)) 5 0 1.0) 9 1 0.5, [-5, 9]⟩

/-! ## General lemmas about lists, the slot index and the candidate loop -/

theorem getD_set_ne (l : List ℕ) {p q : ℕ} (v : ℕ) (h : p ≠ q) :
    (l.set p v).getD q 0 = l.getD q 0 := by
  simp [List.getD_eq_getElem?_getD, List.getElem?_set_ne h]

theorem getD_set_self (l : List ℕ) {p : ℕ} (v : ℕ) (h : p < l.length) :
    (l.set p v).getD p 0 = v := by
  simp [List.getD_eq_getElem?_getD, List.getElem?_set_self', h]

theorem getD_set_self_ge (l : List ℕ) {p : ℕ} (v : ℕ) (h : l.length ≤ p) :
    (l.set p v).getD p 0 = l.getD p 0 := by
  have hnone : l[p]? = none := by
    rw [List.getElem?_eq_none_iff]
    exact h
  simp [List.getD_eq_getElem?_getD, List.getElem?_set_self', hnone]

theorem seg_norm_nonneg (c : Corpus) (a b : ℕ) : 0 ≤ seg_norm c a b :=
  Real.sqrt_nonneg _

/-- An eligible projection forces a nondegenerate segment and at least two
subdivisions: with one subdivision or a zero-length segment the open
interval of source line 45 is empty. -/
theorem eligible_seg_pos {c : Corpus} {a b : ℕ} {k : ℤ} {i : ℕ}
    (hk : 1 ≤ k) (he : eligible c a b k i) :
    0 < seg_norm c a b ∧ 2 ≤ k := by
  obtain ⟨h1, h2⟩ := he
  unfold subdiv_lenght at h1 h2
  have hL : 0 ≤ seg_norm c a b := seg_norm_nonneg c a b
  have hLpos : 0 < seg_norm c a b := by
    rcases eq_or_lt_of_le hL with h0 | hpos
    · exfalso
      rw [← h0] at h1 h2
      simp at h1 h2
      linarith
    · exact hpos
  refine ⟨hLpos, ?_⟩
  by_contra hlt
  push_neg at hlt
  have hk1 : k = 1 := by omega
  subst hk1
  simp at h1 h2
  linarith

/-- Core bound of the slot-index formula of source line 47: for an eligible
candidate the computed slot lies between 1 and subdiv - 1. -/
theorem sub_in_bounds {c : Corpus} {a b : ℕ} {k : ℤ} {i : ℕ}
    (hk : 1 ≤ k) (he : eligible c a b k i) :
    1 ≤ sub_in c a b k i ∧ sub_in c a b k i ≤ k - 1 := by
  obtain ⟨hL, hk2⟩ := eligible_seg_pos hk he
  obtain ⟨h1, h2⟩ := he
  have hkR : (2 : ℝ) ≤ (k : ℝ) := by exact_mod_cast hk2
  have hkpos : (0 : ℝ) < (k : ℝ) := by linarith
  set L := seg_norm c a b with hLdef
  set P := projection c a b i with hPdef
  have hw : subdiv_lenght c a b k = L / (k : ℝ) := rfl
  rw [hw] at h1 h2
  have hsub : sub_in c a b k i
      = Int.floor ((P - L / (k : ℝ) / 2) / L * (k : ℝ)) + 1 := rfl
  have harg_pos : 0 < (P - L / (k : ℝ) / 2) / L * (k : ℝ) :=
    mul_pos (div_pos (by linarith) hL) hkpos
  have hfl0 : 0 ≤ Int.floor ((P - L / (k : ℝ) / 2) / L * (k : ℝ)) :=
    Int.floor_nonneg.mpr (le_of_lt harg_pos)
  have hLk : L / (k : ℝ) * (k : ℝ) = L := div_mul_cancel₀ _ (ne_of_gt hkpos)
  have key : (P - L / (k : ℝ) / 2) * (k : ℝ) < ((k : ℝ) - 1) * L := by
    have h2k := mul_lt_mul_of_pos_right h2 hkpos
    nlinarith [h2k, hLk]
  have harg_lt : (P - L / (k : ℝ) / 2) / L * (k : ℝ) < (k : ℝ) - 1 := by
    rw [div_mul_eq_mul_div, div_lt_iff₀ hL]
    linarith [key]
  have hfl_lt : Int.floor ((P - L / (k : ℝ) / 2) / L * (k : ℝ)) < k - 1 := by
    rw [Int.floor_lt]
    push_cast
    linarith
  rw [hsub]
  omega

theorem assignStep_length (c : Corpus) (a b : ℕ) (k : ℤ) (m : List ℕ) (i : ℕ) :
    (assignStep c a b k m i).length = m.length := by
  unfold assignStep
  split_ifs <;> simp [List.length_set]

theorem assignLoop_length (c : Corpus) (a b : ℕ) (k : ℤ) (m : List ℕ) (n : ℕ) :
    (assignLoop c a b k m n).length = m.length := by
  induction n with
  | zero => rfl
  | succ n ih => rw [assignLoop, assignStep_length, ih]

theorem initMorphism_length {k : ℤ} (hk : 1 ≤ k) (a b : ℕ) :
    (initMorphism a b k).length = k.toNat + 1 := by
  unfold initMorphism
  simp [List.length_set, List.length_replicate]
  omega

/-- The loop body either leaves the list unchanged or, with all three guards
of lines 41, 45 and 49 true, writes i at index sub_in. -/
theorem assignStep_eq_set_or_self (c : Corpus) (a b : ℕ) (k : ℤ) (m : List ℕ) (i : ℕ) :
    (isCandidate c a b i ∧ eligible c a b k i ∧ closerOrEmpty c a b k m i ∧
        assignStep c a b k m i = m.set (sub_in c a b k i).toNat i) ∨
    assignStep c a b k m i = m := by
  unfold assignStep
  split_ifs with h1 h2 h3
  · exact .inl ⟨h1, h2, h3, rfl⟩
  all_goals exact .inr rfl

theorem assignStep_getD_ne (c : Corpus) (a b : ℕ) (k : ℤ) (m : List ℕ) (i : ℕ)
    {p : ℕ} (h : p ≠ (sub_in c a b k i).toNat) :
    (assignStep c a b k m i).getD p 0 = m.getD p 0 := by
  unfold assignStep
  split_ifs <;> first | rfl | exact getD_set_ne m i (Ne.symm h)

/-- The endpoint entries written at source lines 36 and 37 survive the whole
candidate loop: every write lands at a slot index between 1 and subdiv-1. -/
theorem assignLoop_getD_endpoints {c : Corpus} {a b : ℕ} {k : ℤ} (hk : 1 ≤ k) (n : ℕ) :
    (assignLoop c a b k (initMorphism a b k) n).getD 0 0 = a ∧
    (assignLoop c a b k (initMorphism a b k) n).getD k.toNat 0 = b := by
  induction n with
  | zero =>
      constructor
      · unfold assignLoop initMorphism
        rw [getD_set_ne _ _ (by omega : k.toNat ≠ 0)]
        exact getD_set_self _ _ (by simp [List.length_replicate]; omega)
      · unfold assignLoop initMorphism
        exact getD_set_self _ _
          (by simp [List.length_set, List.length_replicate]; omega)
  | succ n ih =>
      rw [assignLoop]
      rcases assignStep_eq_set_or_self c a b k
          (assignLoop c a b k (initMorphism a b k) n) n with ⟨_, he, _, hset⟩ | hid
      · obtain ⟨hlo, hhi⟩ := sub_in_bounds hk he
        rw [hset]
        constructor
        · rw [getD_set_ne _ _ (by omega : (sub_in c a b k n).toNat ≠ 0)]
          exact ih.1
        · rw [getD_set_ne _ _ (by omega : (sub_in c a b k n).toNat ≠ k.toNat)]
          exact ih.2
      · rw [hid]
        exact ih

/-- Whatever the loop leaves at an index either is the initial value or is
the id of some candidate of the scanned range whose guards all held and
whose slot formula pointed exactly there. -/
theorem assignLoop_fill (c : Corpus) (a b : ℕ) (k : ℤ) (m0 : List ℕ) (n p : ℕ) :
    (assignLoop c a b k m0 n).getD p 0 = m0.getD p 0 ∨
    ∃ i, i < n ∧ isCandidate c a b i ∧ eligible c a b k i ∧
      (sub_in c a b k i).toNat = p ∧ (assignLoop c a b k m0 n).getD p 0 = i := by
  induction n with
  | zero => exact .inl rfl
  | succ n ih =>
      rw [assignLoop]
      rcases assignStep_eq_set_or_self c a b k
          (assignLoop c a b k m0 n) n with ⟨hc, he, _, hset⟩ | hid
      · rw [hset]
        by_cases hp : (sub_in c a b k n).toNat = p
        · subst hp
          by_cases hlen :
              (sub_in c a b k n).toNat < (assignLoop c a b k m0 n).length
          · exact .inr ⟨n, by omega, hc, he, rfl, getD_set_self _ _ hlen⟩
          · rw [getD_set_self_ge _ _ (by omega)]
            rcases ih with h | ⟨i, hi, h1, h2, h3, h4⟩
            · exact .inl h
            · exact .inr ⟨i, by omega, h1, h2, h3, h4⟩
        · rw [getD_set_ne _ _ hp]
          rcases ih with h | ⟨i, hi, h1, h2, h3, h4⟩
          · exact .inl h
          · exact .inr ⟨i, by omega, h1, h2, h3, h4⟩
      · rw [hid]
        rcases ih with h | ⟨i, hi, h1, h2, h3, h4⟩
        · exact .inl h
        · exact .inr ⟨i, by omega, h1, h2, h3, h4⟩

/-- If no scanned candidate has all guards pointing at index p, the loop
never writes index p. -/
theorem assignLoop_no_target (c : Corpus) (a b : ℕ) (k : ℤ) (m0 : List ℕ) (n p : ℕ)
    (hno : ∀ i, i < n →
      ¬(isCandidate c a b i ∧ eligible c a b k i ∧ (sub_in c a b k i).toNat = p)) :
    (assignLoop c a b k m0 n).getD p 0 = m0.getD p 0 := by
  induction n with
  | zero => rfl
  | succ n ih =>
      rw [assignLoop]
      have ihn := ih (fun i hi => hno i (by omega))
      rcases assignStep_eq_set_or_self c a b k
          (assignLoop c a b k m0 n) n with ⟨hc, he, _, hset⟩ | hid
      · by_cases hp : (sub_in c a b k n).toNat = p
        · exact absurd ⟨hc, he, hp⟩ (hno n (by omega))
        · rw [hset, getD_set_ne _ _ hp]
          exact ihn
      · rw [hid]
        exact ihn

/-- The interior entries of the initial morphism are the literal 0. -/
theorem initMorphism_getD_interior {a b : ℕ} {k : ℤ} {p : ℕ}
    (hp0 : p ≠ 0) (hpk : p ≠ k.toNat) :
    (initMorphism a b k).getD p 0 = 0 := by
  unfold initMorphism
  rw [getD_set_ne _ _ (Ne.symm hpk), getD_set_ne _ _ (Ne.symm hp0)]
  simp [List.getD_eq_getElem?_getD, List.getElem?_replicate]
  split <;> simp

/-- With a single subdivision no candidate is eligible. -/
theorem not_eligible_one (c : Corpus) (a b : ℕ) (i : ℕ) :
    ¬ eligible c a b 1 i := by
  intro he
  obtain ⟨_, hk2⟩ := eligible_seg_pos le_rfl he
  omega

/-! ## Evaluation lemmas on the concrete corpora -/

theorem sqrt_hundred : Real.sqrt 100 = 10 := by
  rw [show (100 : ℝ) = 10 ^ 2 by norm_num]
  exact Real.sqrt_sq (by norm_num)

theorem mc_seg_norm : seg_norm mc 1 2 = 10 := by
  unfold seg_norm npNorm segment mc
  norm_num [Finset.sum_range_one, sqrt_hundred]

theorem mc_proj0 : projection mc 1 2 0 = 5 := by
  unfold projection
  rw [mc_seg_norm]
  unfold current segment mc
  norm_num [Finset.sum_range_one]

theorem mc_proj3 : projection mc 1 2 3 = 4 := by
  unfold projection
  rw [mc_seg_norm]
  unfold current segment mc
  norm_num [Finset.sum_range_one]

theorem mc_elig0 : eligible mc 1 2 2 0 := by
  unfold eligible subdiv_lenght
  rw [mc_proj0, mc_seg_norm]
  norm_num

theorem mc_elig3 : eligible mc 1 2 2 3 := by
  unfold eligible subdiv_lenght
  rw [mc_proj3, mc_seg_norm]
  norm_num

theorem mc_subin0 : sub_in mc 1 2 2 0 = 1 := by
  unfold sub_in subdiv_lenght
  rw [mc_proj0, mc_seg_norm]
  rw [show ((5 : ℝ) - 10 / ((2 : ℤ) : ℝ) / 2) / 10 * ((2 : ℤ) : ℝ) = 1 / 2 by
    push_cast; norm_num]
  rw [show (1 : ℤ) = 0 + 1 by norm_num]
  congr 1
  rw [Int.floor_eq_iff]
  norm_num

theorem mc_subin3 : sub_in mc 1 2 2 3 = 1 := by
  unfold sub_in subdiv_lenght
  rw [mc_proj3, mc_seg_norm]
  rw [show ((4 : ℝ) - 10 / ((2 : ℤ) : ℝ) / 2) / 10 * ((2 : ℤ) : ℝ) = 3 / 10 by
    push_cast; norm_num]
  rw [show (1 : ℤ) = 0 + 1 by norm_num]
  congr 1
  rw [Int.floor_eq_iff]
  norm_num

theorem mc_rows_ne : row mc 1 ≠ row mc 2 := by
  intro h
  have h0 := congrFun h 0
  simp [row, mc] at h0

theorem mc_loop1 : assignLoop mc 1 2 2 (initMorphism 1 2 2) 1 = [1, 0, 2] := by
  have h0 : assignLoop mc 1 2 2 (initMorphism 1 2 2) 0 = [1, 0, 2] := rfl
  rw [assignLoop, h0]
  unfold assignStep
  rw [if_pos (show isCandidate mc 1 2 0 from ⟨by decide, by decide, by decide⟩)]
  rw [if_pos mc_elig0]
  rw [if_pos (show closerOrEmpty mc 1 2 2 [1, 0, 2] 0 from
       Or.inl (by rw [mc_subin0]; rfl))]
  rw [mc_subin0]
  rfl

theorem mc_step3 : assignStep mc 1 2 2 [1, 0, 2] 3 = [1, 3, 2] := by
  unfold assignStep
  rw [if_pos (show isCandidate mc 1 2 3 from ⟨by decide, by decide, by decide⟩)]
  rw [if_pos mc_elig3]
  rw [if_pos (show closerOrEmpty mc 1 2 2 [1, 0, 2] 3 from
       Or.inl (by rw [mc_subin3]; rfl))]
  rw [mc_subin3]
  rfl

theorem mc_morph : morphList mc 1 2 2 = [1, 3, 2] := by
  unfold morphList
  show assignLoop mc 1 2 2 (initMorphism 1 2 2) 4 = [1, 3, 2]
  rw [assignLoop, assignLoop, assignLoop, mc_loop1]
  have h1 : assignStep mc 1 2 2 [1, 0, 2] 1 = [1, 0, 2] := by
    unfold assignStep
    rw [if_neg (show ¬ isCandidate mc 1 2 1 from fun h => h.1 rfl)]
  have h2 : assignStep mc 1 2 2 [1, 0, 2] 2 = [1, 0, 2] := by
    unfold assignStep
    rw [if_neg (show ¬ isCandidate mc 1 2 2 from fun h => h.2.1 rfl)]
  rw [h1, h2, mc_step3]

theorem mz_seg_norm : seg_norm mz 1 2 = 10 := by
  unfold seg_norm npNorm segment mz
  norm_num [Finset.sum_range_one, sqrt_hundred]

theorem mz_proj0 : projection mz 1 2 0 = 100 := by
  unfold projection
  rw [mz_seg_norm]
  unfold current segment mz
  norm_num [Finset.sum_range_one]

theorem mz_inelig0_2 : ¬ eligible mz 1 2 2 0 := by
  unfold eligible subdiv_lenght
  rw [mz_proj0, mz_seg_norm]
  push_cast
  intro h
  linarith [h.2]

theorem mz_inelig0_3 : ¬ eligible mz 1 2 3 0 := by
  unfold eligible subdiv_lenght
  rw [mz_proj0, mz_seg_norm]
  push_cast
  intro h
  linarith [h.2]

theorem mz_morph2 : morphList mz 1 2 2 = [1, 0, 2] := by
  unfold morphList
  show assignLoop mz 1 2 2 (initMorphism 1 2 2) 3 = [1, 0, 2]
  have h0 : assignLoop mz 1 2 2 (initMorphism 1 2 2) 0 = [1, 0, 2] := rfl
  rw [assignLoop, assignLoop, assignLoop, h0]
  have s0 : assignStep mz 1 2 2 [1, 0, 2] 0 = [1, 0, 2] := by
    unfold assignStep
    rw [if_pos (show isCandidate mz 1 2 0 from ⟨by decide, by decide, by decide⟩), if_neg mz_inelig0_2]
  have s1 : assignStep mz 1 2 2 [1, 0, 2] 1 = [1, 0, 2] := by
    unfold assignStep
    rw [if_neg (show ¬ isCandidate mz 1 2 1 from fun h => h.1 rfl)]
  have s2 : assignStep mz 1 2 2 [1, 0, 2] 2 = [1, 0, 2] := by
    unfold assignStep
    rw [if_neg (show ¬ isCandidate mz 1 2 2 from fun h => h.2.1 rfl)]
  rw [s0, s1, s2]

theorem mz_morph3 : morphList mz 1 2 3 = [1, 0, 0, 2] := by
  unfold morphList
  show assignLoop mz 1 2 3 (initMorphism 1 2 3) 3 = [1, 0, 0, 2]
  have h0 : assignLoop mz 1 2 3 (initMorphism 1 2 3) 0 = [1, 0, 0, 2] := rfl
  rw [assignLoop, assignLoop, assignLoop, h0]
  have s0 : assignStep mz 1 2 3 [1, 0, 0, 2] 0 = [1, 0, 0, 2] := by
    unfold assignStep
    rw [if_pos (show isCandidate mz 1 2 0 from ⟨by decide, by decide, by decide⟩), if_neg mz_inelig0_3]
  have s1 : assignStep mz 1 2 3 [1, 0, 0, 2] 1 = [1, 0, 0, 2] := by
    unfold assignStep
    rw [if_neg (show ¬ isCandidate mz 1 2 1 from fun h => h.1 rfl)]
  have s2 : assignStep mz 1 2 3 [1, 0, 0, 2] 2 = [1, 0, 0, 2] := by
    unfold assignStep
    rw [if_neg (show ¬ isCandidate mz 1 2 2 from fun h => h.2.1 rfl)]
  rw [s0, s1, s2]

theorem mc_dist_lt :
    distance mc (sub_middles mc 1 2 2 0) (row mc 0) <
      distance mc (sub_middles mc 1 2 2 0) (row mc 3) := by
  unfold distance npNorm sub_middles segment row mc
  push_cast
  norm_num [Finset.sum_range_one, Real.sqrt_zero, Real.sqrt_one]

theorem czz_seg_norm : seg_norm czz 0 1 = 0 := by
  unfold seg_norm npNorm segment czz
  norm_num [Finset.sum_range_one, Real.sqrt_zero]

theorem czz_rows_eq : row czz 0 = row czz 1 := by
  funext j
  simp [row, czz]

/-! ## Which inputs make the loader fail with malformedKey -/

theorem parseIndices_malformed_of_bad {p : Posters} {kv : String × Entry}
    (hmem : kv ∈ p) (hbad : pyInt (stripKey kv.1) = none) :
    parseIndices p = .error .malformedKey := by
  induction p with
  | nil => cases hmem
  | cons hd rest ih =>
      obtain ⟨key, e⟩ := hd
      rcases List.mem_cons.mp hmem with heq | htl
      · subst heq
        simp only [parseIndices]
        rw [hbad]
      · cases hp : pyInt (stripKey key) with
        | none => simp [parseIndices, hp]
        | some i =>
            simp only [parseIndices, hp, ih htl]
            rfl

theorem parseIndices_error_only {p : Posters} {e : Err}
    (h : parseIndices p = .error e) : e = .malformedKey := by
  induction p generalizing e with
  | nil => simp [parseIndices] at h
  | cons hd rest ih =>
      obtain ⟨key, en⟩ := hd
      cases hp : pyInt (stripKey key) with
      | none =>
          simp [parseIndices, hp] at h
          exact h.symm
      | some i =>
          simp only [parseIndices, hp] at h
          cases hr : parseIndices rest with
          | error e2 =>
              rw [hr] at h
              have h4 : (Except.error e2 : Except Err (List ℤ)) = .error e := h
              cases h4
              exact ih hr
          | ok l =>
              rw [hr] at h
              simp [Except.map] at h

theorem parseIndices_bad_of_malformed {p : Posters}
    (h : parseIndices p = .error .malformedKey) :
    ∃ kv ∈ p, pyInt (stripKey kv.1) = none := by
  induction p with
  | nil => simp [parseIndices] at h
  | cons hd rest ih =>
      obtain ⟨key, e⟩ := hd
      cases hp : pyInt (stripKey key) with
      | none => exact ⟨(key, e), List.mem_cons_self _ _, hp⟩
      | some i =>
          simp only [parseIndices, hp] at h
          cases hr : parseIndices rest with
          | error e2 =>
              rw [hr] at h
              have h4 : (Except.error e2 : Except Err (List ℤ))
                  = .error .malformedKey := h
              cases h4
              obtain ⟨kv, hm, hb⟩ := ih hr
              exact ⟨kv, List.mem_cons_of_mem _ hm, hb⟩
          | ok l =>
              rw [hr] at h
              simp [Except.map] at h

theorem listMax_error_only {l : List ℤ} {e : Err}
    (h : listMax l = .error e) : e = .emptyMax := by
  induction l generalizing e with
  | nil =>
      have h4 : (Except.error Err.emptyMax : Except Err ℤ) = .error e := h
      cases h4
      rfl
  | cons x xs ih =>
      cases xs with
      | nil => simp [listMax] at h
      | cons y ys =>
          simp only [listMax] at h
          cases hr : listMax (y :: ys) with
          | error e2 =>
              rw [hr] at h
              have h4 : (Except.error e2 : Except Err ℤ) = .error e := h
              cases h4
              exact ih hr
          | ok m =>
              rw [hr] at h
              simp [Except.map] at h

theorem npIndex_ne_malformed (len : ℕ) (i : ℤ) :
    npIndex len i ≠ .error .malformedKey := by
  unfold npIndex
  split_ifs <;> simp

theorem fillTags_ne_malformed (t : TagTable) (rows cols : ℕ) (idx : ℤ)
    (g : List (String × ℝ)) (m : Mat) :
    fillTags t rows cols idx g m ≠ .error .malformedKey := by
  induction g generalizing m with
  | nil => simp [fillTags]
  | cons pair rest ih =>
      obtain ⟨tag, v⟩ := pair
      simp only [fillTags]
      cases hn : npIndex rows idx with
      | error e2 =>
          intro hco
          have h4 : (Except.error e2 : Except Err Mat)
              = .error .malformedKey := hco
          cases h4
          exact npIndex_ne_malformed rows idx hn
      | ok r =>
          cases hl : lookupTag t tag with
          | none =>
              intro hco
              have h4 : (Except.error Err.unknownTag : Except Err Mat)
                  = .error .malformedKey := hco
              exact absurd (Except.error.inj h4) (by decide)
          | some col =>
              show (if col < cols
                    then fillTags t rows cols idx rest (setEntry m r col v)
                    else .error .indexError) ≠ _
              split_ifs
              · exact ih _
              · intro hco
                have h4 : (Except.error Err.indexError : Except Err Mat)
                    = .error .malformedKey := hco
                exact absurd (Except.error.inj h4) (by decide)

theorem fillPosters_ne_malformed (t : TagTable) (rows cols : ℕ) (p : Posters)
    (m : Mat) (hkeys : ∀ kv ∈ p, pyInt (stripKey kv.1) ≠ none) :
    fillPosters t rows cols p m ≠ .error .malformedKey := by
  induction p generalizing m with
  | nil => simp [fillPosters]
  | cons hd rest ih =>
      obtain ⟨key, e⟩ := hd
      cases hp : pyInt (stripKey key) with
      | none => exact absurd hp (hkeys (key, e) (List.mem_cons_self _ _))
      | some idx =>
          simp only [fillPosters, hp]
          cases hf : fillTags t rows cols idx e.general m with
          | error e2 =>
              intro hco
              have h4 : (Except.error e2 : Except Err Mat)
                  = .error .malformedKey := hco
              cases h4
              exact fillTags_ne_malformed t rows cols idx e.general m hf
          | ok m2 =>
              show fillPosters t rows cols rest m2 ≠ _
              exact ih m2 (fun kv hm => hkeys kv (List.mem_cons_of_mem _ hm))

theorem except_bind_ok {α β : Type} (a : α) (f : α → Except Err β) :
    (Except.ok a : Except Err α) >>= f = f a := rfl

theorem except_bind_error {α β : Type} (e : Err) (f : α → Except Err β) :
    (Except.error e : Except Err α) >>= f = .error e := rfl

theorem except_pure {α : Type} (a : α) :
    (pure a : Except Err α) = .ok a := rfl

/-- The loader fails with malformedKey exactly when some key of the input
mapping has a prefix that int() cannot parse; the failure is raised by the
first loop, before any matrix is allocated. -/
theorem load_malformed_iff (t : TagTable) (p : Posters) :
    load t p = .error .malformedKey ↔
      ∃ kv ∈ p, pyInt (stripKey kv.1) = none := by
  constructor
  · intro h
    by_contra hno
    push_neg at hno
    cases hpi : parseIndices p with
    | error e2 =>
        have he2 := parseIndices_error_only hpi
        subst he2
        obtain ⟨kv, hm, hb⟩ := parseIndices_bad_of_malformed hpi
        exact hno kv hm hb
    | ok idxs =>
        rw [load] at h
        simp only [hpi, except_bind_ok] at h
        cases hmx : listMax idxs with
        | error e3 =>
            simp only [hmx, except_bind_error, Except.error.injEq] at h
            subst h
            exact absurd (listMax_error_only hmx) (by decide)
        | ok mx =>
            simp only [hmx, except_bind_ok] at h
            by_cases hneg : mx + 1 < 0
            · rw [if_pos hneg] at h
              simp only [except_bind_error, Except.error.injEq] at h
              cases h
            · rw [if_neg hneg] at h
              cases hfp : fillPosters t (mx + 1).toNat t.length p
                  (fun _ _ => (0 : ℝ)) with
              | error e4 =>
                  simp only [hfp, except_bind_error, Except.error.injEq] at h
                  subst h
                  exact fillPosters_ne_malformed _ _ _ _ _ hno hfp
              | ok m2 =>
                  simp only [hfp, except_bind_ok, except_pure] at h
                  exact Except.noConfusion h
  · rintro ⟨kv, hm, hb⟩
    have h1 := parseIndices_malformed_of_bad hm hb
    rw [load, h1]
    rfl

/-- The non-failing path of morphing: both endpoints index within the
matrix and the subdivision count is at least one. -/
theorem morphing_ok {c : Corpus} {a b : ℕ} {k : ℤ}
    (ha : a < c.rows) (hb : b < c.rows) (hk : 1 ≤ k) :
    morphing c a b k = .ok (morphList c a b k) := by
  unfold morphing
  rw [if_neg (by omega), if_neg (by omega)]

/-! ## Claim theorems -/

/-- C1: for every corpus and valid call (both endpoints in range, distinct,
subdivisions at least 1), morphing returns a sequence of length k+1 whose
position 0 holds a and position k holds b, and no iteration of the
candidate-assignment loop ever changes these two endpoint entries. -/
theorem C1_endpoints (c : Corpus) (a b : ℕ) (k : ℤ)
    (ha : a < c.rows) (hb : b < c.rows) (hab : a ≠ b) (hk : 1 ≤ k) :
    morphing c a b k = .ok (morphList c a b k) ∧
    (morphList c a b k).length = k.toNat + 1 ∧
    (morphList c a b k).getD 0 0 = a ∧
    (morphList c a b k).getD k.toNat 0 = b ∧
    ∀ n, (assignLoop c a b k (initMorphism a b k) n).getD 0 0 = a ∧
         (assignLoop c a b k (initMorphism a b k) n).getD k.toNat 0 = b := by
  refine ⟨morphing_ok ha hb hk, ?_, ?_, ?_, ?_⟩
  · rw [morphList, assignLoop_length, initMorphism_length hk]
  · exact (assignLoop_getD_endpoints hk c.rows).1
  · exact (assignLoop_getD_endpoints hk c.rows).2
  · exact fun n => assignLoop_getD_endpoints hk n

/-- Witness for C1 on the corpus mc with a = 1, b = 2, k = 2. -/
theorem C1_endpoints_witness :
    morphing mc 1 2 2 = .ok (morphList mc 1 2 2) ∧
    (morphList mc 1 2 2).length = 3 ∧
    (morphList mc 1 2 2).getD 0 0 = 1 ∧
    (morphList mc 1 2 2).getD 2 0 = 2 := by
  obtain ⟨h1, h2, h3, h4, h5⟩ :=
    C1_endpoints mc 1 2 2 (by decide) (by decide) (by decide) (by decide)
  exact ⟨h1, h2, h3, h4⟩

/-- C2: the loop body assigns a candidate only when the guard of line 45
holds (the projection strictly inside the open interval between half a slot
width and seg_norm minus half a slot width), for every eligible candidate
the slot index of line 47 lies between 1 and k-1, and no other entry than
that slot is ever written. -/
theorem C2_slot_bounds (c : Corpus) (a b : ℕ) (k : ℤ) (i : ℕ) (hk : 1 ≤ k) :
    (¬ eligible c a b k i → ∀ m, assignStep c a b k m i = m) ∧
    (eligible c a b k i →
      1 ≤ sub_in c a b k i ∧ sub_in c a b k i ≤ k - 1) ∧
    (∀ (m : List ℕ) (p : ℕ), p ≠ (sub_in c a b k i).toNat →
      (assignStep c a b k m i).getD p 0 = m.getD p 0) := by
  refine ⟨?_, fun he => sub_in_bounds hk he,
    fun m p hp => assignStep_getD_ne c a b k m i hp⟩
  intro hne m
  unfold assignStep
  split_ifs <;> rfl

/-- Witness for C2: in corpus mc the candidate 0 is eligible and its slot
index is 1, inside the interior range for k = 2. -/
theorem C2_slot_bounds_witness :
    1 ≤ sub_in mc 1 2 2 0 ∧ sub_in mc 1 2 2 0 ≤ 2 - 1 :=
  (C2_slot_bounds mc 1 2 2 0 (by decide)).2.1 mc_elig0

/-- C3 counterexample: in corpus mc candidate 0 (which is id 0, lying at
distance 0 from the slot target) is assigned to slot 1; the later candidate
3 is strictly farther from the target yet still overwrites it, because the
occupant id 0 cannot be told apart from the unfilled sentinel 0.  This
refutes the claim that a slot holding an occupant is only ever overwritten
by a strictly closer candidate. -/
theorem C3_counterexample :
    isCandidate mc 1 2 0 ∧ eligible mc 1 2 2 0 ∧
    (sub_in mc 1 2 2 0).toNat = 1 ∧
    closerOrEmpty mc 1 2 2 (initMorphism 1 2 2) 0 ∧
    assignLoop mc 1 2 2 (initMorphism 1 2 2) 1 = [1, 0, 2] ∧
    isCandidate mc 1 2 3 ∧ eligible mc 1 2 2 3 ∧
    (sub_in mc 1 2 2 3).toNat = 1 ∧
    closerOrEmpty mc 1 2 2 [1, 0, 2] 3 ∧
    distance mc (sub_middles mc 1 2 2 0) (row mc 0) <
      distance mc (sub_middles mc 1 2 2 0) (row mc 3) ∧
    morphList mc 1 2 2 = [1, 3, 2] :=
  ⟨⟨by decide, by decide, by decide⟩, mc_elig0, by rw [mc_subin0]; rfl,
   Or.inl (by rw [mc_subin0]; rfl), mc_loop1,
   ⟨by decide, by decide, by decide⟩, mc_elig3, by rw [mc_subin3]; rfl,
   Or.inl (by rw [mc_subin3]; rfl), mc_dist_lt, mc_morph⟩

/-- C3 amended: for a candidate passing the guards of lines 41 and 45 whose
slot index is inside the list, the slot is overwritten exactly when its
current value is the literal 0 (the unfilled sentinel, which identifier 0
also takes when assigned) or the candidate row is strictly closer to the
slot target; otherwise, in particular on a distance tie against a nonzero
occupant, the occupant is kept, and no other entry changes. -/
theorem C3_overwrite (c : Corpus) (a b : ℕ) (k : ℤ) (m : List ℕ) (i : ℕ)
    (hc : isCandidate c a b i) (he : eligible c a b k i)
    (hlen : (sub_in c a b k i).toNat < m.length) :
    (closerOrEmpty c a b k m i →
      (assignStep c a b k m i).getD (sub_in c a b k i).toNat 0 = i) ∧
    (¬ closerOrEmpty c a b k m i → assignStep c a b k m i = m) ∧
    (∀ p, p ≠ (sub_in c a b k i).toNat →
      (assignStep c a b k m i).getD p 0 = m.getD p 0) := by
  refine ⟨?_, ?_, fun p hp => assignStep_getD_ne c a b k m i hp⟩
  · intro hclose
    unfold assignStep
    rw [if_pos hc, if_pos he, if_pos hclose]
    exact getD_set_self m i hlen
  · intro hnclose
    unfold assignStep
    rw [if_pos hc, if_pos he, if_neg hnclose]

/-- Witness for C3 amended: candidate 3 of corpus mc overwrites slot 1 of
the list [1, 0, 2]. -/
theorem C3_overwrite_witness :
    (assignStep mc 1 2 2 [1, 0, 2] 3).getD (sub_in mc 1 2 2 3).toNat 0 = 3 :=
  (C3_overwrite mc 1 2 2 [1, 0, 2] 3 ⟨by decide, by decide, by decide⟩
      mc_elig3 (by rw [mc_subin3]; decide)).1
    (Or.inl (by rw [mc_subin3]; rfl))

/-- C4 counterexample: both endpoints are the same in-range id 0, yet the
call does not fail: it returns the morphism [0, 0, 0].  This refutes the
claim that morphing fails (with InvalidEndpoint) whenever a = b. -/
theorem C4_counterexample : morphing c4c 0 0 2 = .ok [0, 0, 0] := by
  have h : morphList c4c 0 0 2 = [0, 0, 0] := by
    unfold morphList
    show assignLoop c4c 0 0 2 (initMorphism 0 0 2) 1 = [0, 0, 0]
    rw [assignLoop]
    have h0 : assignLoop c4c 0 0 2 (initMorphism 0 0 2) 0 = [0, 0, 0] := rfl
    rw [h0]
    unfold assignStep
    rw [if_neg (show ¬ isCandidate c4c 0 0 0 from fun hh => hh.1 rfl)]
  rw [morphing_ok (by decide) (by decide) (by decide), h]

/-- C4 amended: morphing performs no validation of its own.  An
out-of-range endpoint raises the numpy IndexError of line 29 (there is no
InvalidEndpoint); with endpoints in range, subdivisions below 1 raises the
negative-dimension ValueError of np.zeros at line 31 (there is no
InvalidSubdivision); equal endpoints are not rejected; and with endpoints
in range and at least one subdivision the call always returns a morphism. -/
theorem C4_errors (c : Corpus) (a b : ℕ) (k : ℤ) :
    (morphing c a b k = .error .indexError ↔ c.rows ≤ a ∨ c.rows ≤ b) ∧
    (a < c.rows → b < c.rows →
      (morphing c a b k = .error .negativeDimensions ↔ k < 1)) ∧
    (a < c.rows → b < c.rows → 1 ≤ k →
      morphing c a b k = .ok (morphList c a b k)) := by
  refine ⟨?_, ?_, fun ha hb hk => morphing_ok ha hb hk⟩
  · unfold morphing
    split_ifs with h1 h2
    · simp [h1]
    · simp [h1]
    · simp [h1]
  · intro ha hb
    unfold morphing
    rw [if_neg (by omega)]
    split_ifs with h2
    · simp
      omega
    · simp
      omega

/-- Witness for C4 amended: with endpoints in range (even equal ones) and
one subdivision the call returns a morphism. -/
theorem C4_errors_witness :
    morphing c4c 0 0 1 = .ok (morphList c4c 0 0 1) :=
  (C4_errors c4c 0 0 1).2.2 (by decide) (by decide) (by decide)

/-- C5 counterexample: in corpus mz the value 0 is both the unfilled marker
and the id of a real poster distinct from the endpoints 1 and 2, and it
occurs at the two interior positions of the result, so an identifier other
than a and b appears in more than one position. -/
theorem C5_counterexample :
    morphList mz 1 2 3 = [1, 0, 0, 2] ∧ (0 : ℤ) ∈ mz.real ∧
    (0 : ℕ) ≠ 1 ∧ (0 : ℕ) ≠ 2 ∧
    (morphList mz 1 2 3).getD 1 0 = 0 ∧ (morphList mz 1 2 3).getD 2 0 = 0 :=
  ⟨mz_morph3, by decide, by decide, by decide,
   by rw [mz_morph3]; rfl, by rw [mz_morph3]; rfl⟩

/-- C5 amended: within one call each candidate is assigned to at most one
slot (the slot index is a function of the candidate and each candidate is
scanned once), so any value occurring at two distinct positions of the
result is the literal 0 - the unfilled marker, which coincides with the id
of poster 0. -/
theorem C5_no_duplicates (c : Corpus) (a b : ℕ) (k : ℤ)
    (hk : 1 ≤ k) (hab : a ≠ b) (p q : ℕ) (hpq : p ≠ q)
    (heq : (morphList c a b k).getD p 0 = (morphList c a b k).getD q 0) :
    (morphList c a b k).getD p 0 = 0 := by
  by_contra hv
  have hvq : (morphList c a b k).getD q 0 ≠ 0 := by
    rw [← heq]; exact hv
  have hchar : ∀ r : ℕ, (morphList c a b k).getD r 0 ≠ 0 →
      (r = 0 ∧ (morphList c a b k).getD r 0 = a) ∨
      (r = k.toNat ∧ (morphList c a b k).getD r 0 = b) ∨
      (∃ i, isCandidate c a b i ∧ (sub_in c a b k i).toNat = r ∧
        (morphList c a b k).getD r 0 = i) := by
    intro r hr
    by_cases hr0 : r = 0
    · subst hr0
      exact .inl ⟨rfl, (assignLoop_getD_endpoints hk c.rows).1⟩
    by_cases hrk : r = k.toNat
    · subst hrk
      exact .inr (.inl ⟨rfl, (assignLoop_getD_endpoints hk c.rows).2⟩)
    rcases assignLoop_fill c a b k (initMorphism a b k) c.rows r with
      h | ⟨i, _, hc1, _, h3, h4⟩
    · exact absurd (h.trans (initMorphism_getD_interior hr0 hrk)) hr
    · exact .inr (.inr ⟨i, hc1, h3, h4⟩)
  rcases hchar p hv with ⟨hp0, hpa⟩ | ⟨hpk, hpb⟩ | ⟨i, hci, hsi, hvi⟩ <;>
    rcases hchar q hvq with ⟨hq0, hqa⟩ | ⟨hqk, hqb⟩ | ⟨i2, hci2, hsi2, hvi2⟩
  · exact hpq (hp0.trans hq0.symm)
  · exact hab (hpa.symm.trans (heq.trans hqb))
  · exact hci2.1 ((hvi2.symm.trans heq.symm).trans hpa)
  · exact hab ((hpb.symm.trans heq).trans hqa).symm
  · exact hpq (hpk.trans hqk.symm)
  · exact hci2.2.1 ((hvi2.symm.trans heq.symm).trans hpb)
  · exact hci.1 ((hvi.symm.trans heq).trans hqa)
  · exact hci.2.1 ((hvi.symm.trans heq).trans hqb)
  · have hii : i = i2 := (hvi.symm.trans heq).trans hvi2
    subst hii
    exact hpq (hsi.symm.trans hsi2)

/-- Witness for C5 amended at corpus mz: the value shared by positions 1
and 2 of the result is 0. -/
theorem C5_no_duplicates_witness : (morphList mz 1 2 3).getD 1 0 = 0 :=
  C5_no_duplicates mz 1 2 3 (by decide) (by decide) 1 2 (by decide)
    (by rw [mz_morph3]; rfl)

/-- C6: with a single subdivision the eligibility interval of line 45 is
empty, so no interior candidate is ever assigned and the call returns
exactly the two-element sequence holding a and b. -/
theorem C6_single (c : Corpus) (a b : ℕ)
    (ha : a < c.rows) (hb : b < c.rows) (hab : a ≠ b)
    (hvec : row c a ≠ row c b) :
    morphing c a b 1 = .ok [a, b] := by
  have hml : morphList c a b 1 = [a, b] := by
    have h : ∀ n, assignLoop c a b 1 (initMorphism a b 1) n
        = initMorphism a b 1 := by
      intro n
      induction n with
      | zero => rfl
      | succ n ih =>
          rw [assignLoop, ih]
          unfold assignStep
          split_ifs with h1 h2 h3
          · exact absurd h2 (not_eligible_one c a b n)
          all_goals rfl
    unfold morphList
    rw [h c.rows]
    rfl
  rw [morphing_ok ha hb (by norm_num), hml]

/-- Witness for C6 at corpus mc: morphing from 1 to 2 with one subdivision
returns [1, 2]. -/
theorem C6_single_witness : morphing mc 1 2 1 = .ok [1, 2] :=
  C6_single mc 1 2 (by decide) (by decide) (by decide) mc_rows_ne

/-- C7 counterexample: in corpus mz no candidate is eligible, so the
interior slot of the result keeps the value 0; but 0 is itself the id of a
real poster of the corpus, so the unfilled marker is not distinct from
every valid identifier.  The call still succeeds. -/
theorem C7_counterexample :
    morphList mz 1 2 2 = [1, 0, 2] ∧
    (morphList mz 1 2 2).getD 1 0 = 0 ∧
    (0 : ℤ) ∈ mz.real ∧
    ¬ (isCandidate mz 1 2 0 ∧ eligible mz 1 2 2 0) ∧
    ¬ isCandidate mz 1 2 1 ∧ ¬ isCandidate mz 1 2 2 ∧
    morphing mz 1 2 2 = .ok (morphList mz 1 2 2) :=
  ⟨mz_morph2, by rw [mz_morph2]; rfl, by decide,
   fun h => mz_inelig0_2 h.2, fun h => h.1 rfl, fun h => h.2.1 rfl,
   morphing_ok (by decide) (by decide) (by decide)⟩

/-- C7 amended: an interior slot for which no candidate passes the guards
keeps the value 0 it was initialised with (the same integer that also
serves as the id of poster 0), and a call with endpoints in range and at
least one subdivision never fails, however many slots stay unfilled. -/
theorem C7_unfilled (c : Corpus) (a b : ℕ) (k : ℤ) (p : ℕ)
    (ha : a < c.rows) (hb : b < c.rows) (hk : 1 ≤ k)
    (hp0 : p ≠ 0) (hpk : p ≠ k.toNat)
    (hno : ∀ i, i < c.rows →
      ¬(isCandidate c a b i ∧ eligible c a b k i ∧
        (sub_in c a b k i).toNat = p)) :
    (morphList c a b k).getD p 0 = 0 ∧
    morphing c a b k = .ok (morphList c a b k) := by
  refine ⟨?_, morphing_ok ha hb hk⟩
  unfold morphList
  rw [assignLoop_no_target c a b k (initMorphism a b k) c.rows p hno]
  exact initMorphism_getD_interior hp0 hpk

/-- Witness for C7 amended at corpus mz, slot 1. -/
theorem C7_unfilled_witness :
    (morphList mz 1 2 2).getD 1 0 = 0 ∧
    morphing mz 1 2 2 = .ok (morphList mz 1 2 2) :=
  C7_unfilled mz 1 2 2 1 (by decide) (by decide) (by decide)
    (by decide) (by decide)
    (fun i hi h => by
      have hi3 : i < 3 := hi
      interval_cases i
      · exact mz_inelig0_2 h.2.1
      · exact h.1.1 rfl
      · exact h.1.2.1 rfl)

/-- C8: the loader applied to the two-entry mapping with keys 5.jpg and
9.jpg and the two-tag table builds exactly c8corpus: ten rows (the largest
id seen plus one), row 5 equal to [1, 0], row 9 equal to [0, 0.5], every
other row all-zero, and no id besides 5 and 9 recorded as a real poster. -/
theorem C8_loader :
    load tt8 pp8 = .ok c8corpus ∧
    c8corpus.rows = 10 ∧
    c8corpus.mat 5 0 = 1 ∧ c8corpus.mat 5 1 = 0 ∧
    c8corpus.mat 9 0 = 0 ∧ c8corpus.mat 9 1 = 0.5 ∧
    (∀ i j, i ≠ 5 → i ≠ 9 → c8corpus.mat i j = 0) ∧
    (∀ i : ℤ, i ≠ 5 → i ≠ 9 → i ∉ c8corpus.real) := by
  refine ⟨rfl, rfl, ?_, ?_, ?_, ?_, ?_, ?_⟩
  · norm_num [c8corpus, setEntry]
  · norm_num [c8corpus, setEntry]
  · norm_num [c8corpus, setEntry]
  · norm_num [c8corpus, setEntry]
  · intro i j h5 h9
    simp [c8corpus, setEntry, h5, h9]
  · intro i h5 h9
    simp [c8corpus, h5, h9]

/-- Witness for C8 on a row other than 5 and 9. -/
theorem C8_loader_witness :
    c8corpus.mat 3 1 = 0 ∧ (3 : ℤ) ∉ c8corpus.real :=
  ⟨C8_loader.2.2.2.2.2.2.1 3 1 (by decide) (by decide),
   C8_loader.2.2.2.2.2.2.2 3 (by decide) (by decide)⟩

/-- C9 counterexample: the key prefix "-5" is not a valid non-negative
integer, yet int() parses it (to the negative id -5) and the loader
succeeds, returning a corpus, instead of failing with malformedKey. -/
theorem C9_counterexample :
    pyInt (stripKey "-5.jpg") = some (-5) ∧
    load tt8 ppNeg = .ok c9corpus :=
  ⟨rfl, rfl⟩

/-- C9 amended: the loader fails with malformedKey exactly when some key of
the input, after the four-character suffix is stripped, has a prefix that
int() cannot parse.  For ASCII prefixes (the embedded fragment of int())
parseable means: optional surrounding whitespace, an optional sign, then
decimal digits with single underscores allowed between digits - so the
negative prefix of -5.jpg, the underscored 1_0.jpg and the padded
( 5.jpg) keys all load successfully rather than fail, while abc.jpg fails
the parse and aborts construction before any corpus exists.  Non-ASCII
decimal digits and non-ASCII whitespace also accepted by int() are outside
the embedding, hence the ASCII scope of the characterisation. -/
theorem C9_malformed :
    (∀ (t : TagTable) (p : Posters),
      (∀ kv ∈ p, ∀ ch ∈ (stripKey kv.1).toList, ch.toNat < 128) →
      (load t p = .error .malformedKey ↔
        ∃ kv ∈ p, pyInt (stripKey kv.1) = none)) ∧
    pyInt (stripKey "1_0.jpg") = some 10 ∧
    pyInt (stripKey " 5.jpg") = some 5 ∧
    load tt8 [("1_0.jpg", ⟨[("catgirl", 1.0)]⟩)]
      = .ok ⟨2, 11, setEntry (fun _ _ => (0 : ℝ)) 10 0 1.0, [10]⟩ ∧
    load tt8 [("abc.jpg", ⟨[("catgirl", 1.0)]⟩)] = .error .malformedKey :=
  ⟨fun t p _ => load_malformed_iff t p, rfl, rfl, rfl, rfl⟩

/-- Witness for C9 amended: a fresh malformed key makes the loader fail,
through the characterisation instantiated at an all-ASCII input. -/
theorem C9_malformed_witness :
    load tt8 [("xyz.jpg", ⟨[]⟩)] = .error .malformedKey :=
  (C9_malformed.1 tt8 [("xyz.jpg", ⟨[]⟩)] (by decide)).mpr
    ⟨("xyz.jpg", ⟨[]⟩), List.mem_cons_self _ _, rfl⟩

/-- C10: endpoints 0 and 1 of corpus czz satisfy every stated precondition
(distinct ids, in range, subdivisions at least 1) while their rows are
equal, so seg_norm is 0 and the projection division of line 43 runs with a
zero divisor at the real candidate 2; the call itself returns normally. -/
theorem C10_div_by_zero :
    (0 : ℕ) ≠ 1 ∧ 0 < czz.rows ∧ 1 < czz.rows ∧ (1 : ℤ) ≤ 4 ∧
    row czz 0 = row czz 1 ∧
    divByZeroAt czz 0 1 2 ∧
    morphing czz 0 1 4 = .ok (morphList czz 0 1 4) :=
  ⟨by decide, by decide, by decide, by decide, czz_rows_eq,
   ⟨by decide, ⟨by decide, by decide, by decide⟩, czz_seg_norm⟩,
   morphing_ok (by decide) (by decide) (by decide)⟩

end Morphingpm
